import Mathlib

/-!
Shallow embedding of the sexpy parser-combinator engine
(src/error.rs, src/parsers.rs, src/std_impls.rs, src/lib.rs).

An input view is the remaining suffix of the original buffer, modelled as a
`List Char`; the Rust code's pointer-offset position of a view inside the
original buffer is recovered as `buffer.length - view.length`.  The nom 5
combinators the crate instantiates (`char`, `one_of`, `none_of`, `anychar`,
`take_till`, `peek`, `map`, `preceded`, `delimited`, `tuple`, `opt`, `cut`,
`alt`, `many0`, `alpha1`, `digit1`) are embedded with their nom 5.x complete
semantics; `many0`'s internal loop is expressed with a fuel argument that is
always sufficient because every repeated inner parser consumes at least one
character of the suffix it is given.
-/

namespace Sexpy

/-- An input view: the remaining suffix of the original text buffer. -/
abbrev Input := List Char

/-- The nom `ErrorKind` variants that the embedded combinators can produce. -/
inductive ErrorKind where
  | OneOf
  | NoneOf
  | Many0
  | Many1
  | Alpha
  | Digit
  | Eof
  | Alt
deriving DecidableEq, Repr

/-- Embeds `SexpyErrorKind` from src/error.rs: the diagnostic kinds. -/
inductive SexpyErrorKind where
  | Context (s : String)
  | Char (c : Char)
  | Word (w : String)
  | Number
  | Nom (k : ErrorKind)
deriving DecidableEq, Repr

/-- Embeds `SexpyError` from src/error.rs: the ordered accumulator of
`(view, diagnostic)` pairs. -/
structure SexpyError where
  errors : List (Input × SexpyErrorKind)
deriving DecidableEq, Repr

/-- nom's `Err`: a recoverable `Error`, a committed `Failure`, or
`Incomplete` (never produced by the complete combinators this crate uses,
but part of the type and handled by the crate's code). -/
inductive NomErr where
  | Error (e : SexpyError)
  | Failure (e : SexpyError)
  | Incomplete
deriving DecidableEq, Repr

/-- nom's `IResult`: either `(remaining_view, value)` or an error. -/
abbrev PResult (α : Type) := Except NomErr (Input × α)

/-- The shape of every embedded combinator. -/
abbrev Parser (α : Type) := Input → PResult α

namespace SexpyError

/-- Embeds `ParseError::from_error_kind` (src/error.rs lines 28-32). -/
def from_error_kind (input : Input) (kind : ErrorKind) : SexpyError :=
  ⟨[(input, .Nom kind)]⟩

/-- Embeds `ParseError::append` (src/error.rs lines 34-37): `Vec::push` puts the
new entry after the existing ones. -/
def append (input : Input) (kind : ErrorKind) (other : SexpyError) : SexpyError :=
  ⟨other.errors ++ [(input, .Nom kind)]⟩

/-- Embeds `ParseError::from_char` (src/error.rs lines 39-43). -/
def from_char (input : Input) (c : Char) : SexpyError :=
  ⟨[(input, .Char c)]⟩

/-- Embeds `ParseError::add_context` (src/error.rs lines 45-48): `Vec::push` puts
the new context entry after the existing ones. -/
def add_context (input : Input) (ctx : String) (other : SexpyError) : SexpyError :=
  ⟨other.errors ++ [(input, .Context ctx)]⟩

/-- Embeds `SexpyError::from_word` (src/error.rs lines 53-57). -/
def from_word (input : Input) (w : String) : SexpyError :=
  ⟨[(input, .Word w)]⟩

/-- Embeds `SexpyError::number` (src/error.rs lines 60-64). -/
def number (input : Input) : SexpyError :=
  ⟨[(input, .Number)]⟩

end SexpyError

/-- The `context` combinator (src/error.rs lines 97-112). -/
def context {α : Type} (ctx : String) (f : Parser α) : Parser α := fun i =>
  match f i with
  | .ok o => .ok o
  | .error .Incomplete => .error .Incomplete
  | .error (.Error e) => .error (.Error (SexpyError.add_context i ctx e))
  | .error (.Failure e) => .error (.Failure (SexpyError.add_context i ctx e))

/-- nom `character::complete::char`: consumes exactly the expected
character, otherwise fails recoverably with a `from_char` diagnostic. -/
def charP (c : Char) : Parser Char := fun i =>
  match i with
  | c' :: rest => if c' = c then .ok (rest, c) else .error (.Error (.from_char i c))
  | [] => .error (.Error (.from_char i c))

/-- nom `character::complete::one_of`. -/
def one_of (l : List Char) : Parser Char := fun i =>
  match i with
  | c :: rest =>
    if c ∈ l then .ok (rest, c) else .error (.Error (.from_error_kind i .OneOf))
  | [] => .error (.Error (.from_error_kind i .OneOf))

/-- nom `character::complete::none_of`. -/
def none_of (l : List Char) : Parser Char := fun i =>
  match i with
  | c :: rest =>
    if c ∈ l then .error (.Error (.from_error_kind i .NoneOf)) else .ok (rest, c)
  | [] => .error (.Error (.from_error_kind i .NoneOf))

/-- nom `character::complete::anychar`. -/
def anychar : Parser Char := fun i =>
  match i with
  | c :: rest => .ok (rest, c)
  | [] => .error (.Error (.from_error_kind i .Eof))

/-- nom `bytes::complete::take_till`: splits at the first character
satisfying the predicate; the complete version never fails. -/
def take_till (p : Char → Bool) : Parser (List Char) := fun i =>
  .ok (i.dropWhile (fun c => !(p c)), i.takeWhile (fun c => !(p c)))

/-- nom `combinator::map`. -/
def mapP {α β : Type} (f : Parser α) (g : α → β) : Parser β := fun i =>
  match f i with
  | .ok (rest, o) => .ok (rest, g o)
  | .error e => .error e

/-- nom `combinator::peek`: runs the parser but does not consume input. -/
def peek {α : Type} (f : Parser α) : Parser α := fun i =>
  match f i with
  | .ok (_, o) => .ok (i, o)
  | .error e => .error e

/-- nom `combinator::cut`: escalates a recoverable `Error` into a committed
`Failure`; everything else passes through. -/
def cut {α : Type} (f : Parser α) : Parser α := fun i =>
  match f i with
  | .error (.Error e) => .error (.Failure e)
  | r => r

/-- nom `combinator::opt`. -/
def opt {α : Type} (f : Parser α) : Parser (Option α) := fun i =>
  match f i with
  | .ok (i1, o) => .ok (i1, some o)
  | .error (.Error _) => .ok (i, none)
  | .error e => .error e

/-- nom `sequence::preceded`. -/
def preceded {α β : Type} (f : Parser α) (g : Parser β) : Parser β := fun i =>
  match f i with
  | .ok (i1, _) => g i1
  | .error e => .error e

/-- nom `sequence::delimited`. -/
def delimited {α β γ : Type} (f : Parser α) (g : Parser β) (h : Parser γ) :
    Parser β := fun i =>
  match f i with
  | .error e => .error e
  | .ok (i1, _) =>
    match g i1 with
    | .error e => .error e
    | .ok (i2, o2) =>
      match h i2 with
      | .error e => .error e
      | .ok (i3, _) => .ok (i3, o2)

/-- nom `sequence::tuple` for a pair. -/
def tuple2 {α β : Type} (f : Parser α) (g : Parser β) : Parser (α × β) := fun i =>
  match f i with
  | .error e => .error e
  | .ok (i1, a) =>
    match g i1 with
    | .error e => .error e
    | .ok (i2, b) => .ok (i2, (a, b))

/-- nom 5 `branch::alt` for two alternatives: a recoverable failure of the
first tries the second on the same input (the first error is discarded by
the default `ParseError::or`, which keeps the second); when both fail
recoverably an `ErrorKind::Alt` entry is appended to the last error.  A
committed `Failure` is returned immediately. -/
def alt2 {α : Type} (a b : Parser α) : Parser α := fun i =>
  match a i with
  | .error (.Error _) =>
    match b i with
    | .error (.Error e2) => .error (.Error (SexpyError.append i .Alt e2))
    | res => res
  | res => res

/-- The loop of nom 5 `multi::many0` / the continuation loop of `many1`,
with explicit fuel.  On a recoverable inner failure the loop stops
successfully; a committed failure propagates; an inner success that
consumes nothing yields the given `ErrorKind` (nom's infinite-loop
protection).  The fuel case is unreachable whenever the inner parser
consumes at least one character per success and the initial fuel exceeds
the input length. -/
def manyLoopF {α : Type} (k : ErrorKind) (f : Parser α) :
    Nat → Parser (List α)
  | 0 => fun i => .error (.Error (.from_error_kind i k))
  | fuel + 1 => fun i =>
    match f i with
    | .error (.Error _) => .ok (i, [])
    | .error e => .error e
    | .ok (i1, o) =>
      if i1 = i then .error (.Error (.from_error_kind i k))
      else
        match manyLoopF k f fuel i1 with
        | .ok (i2, os) => .ok (i2, o :: os)
        | .error e => .error e

/-- nom 5 `multi::many0`. -/
def many0 {α : Type} (f : Parser α) : Parser (List α) := fun i =>
  manyLoopF .Many0 f (i.length + 1) i

/-- nom 5 `multi::many1`: the first repetition must succeed (a recoverable
first failure gets an `ErrorKind::Many1` entry appended); the rest is the
`many0`-style loop. -/
def many1 {α : Type} (f : Parser α) : Parser (List α) := fun i =>
  match f i with
  | .error (.Error err) => .error (.Error (.append i .Many1 err))
  | .error e => .error e
  | .ok (i1, o) =>
    match manyLoopF .Many1 f (i1.length + 1) i1 with
    | .ok (i2, os) => .ok (i2, o :: os)
    | .error e => .error e

/-- ASCII alphabetic, the class matched by nom's `alpha1` on this input. -/
def isAsciiAlpha (c : Char) : Bool :=
  ('a' ≤ c && c ≤ 'z') || ('A' ≤ c && c ≤ 'Z')

/-- ASCII decimal digit, the class matched by nom's `digit1`. -/
def isAsciiDigit (c : Char) : Bool :=
  '0' ≤ c && c ≤ '9'

/-- nom `character::complete::alpha1`: one or more alphabetic characters,
maximal run; fails recoverably with `ErrorKind::Alpha` when the first
character does not match. -/
def alpha1 : Parser (List Char) := fun i =>
  let taken := i.takeWhile isAsciiAlpha
  if taken.isEmpty then .error (.Error (.from_error_kind i .Alpha))
  else .ok (i.dropWhile isAsciiAlpha, taken)

/-- nom `character::complete::digit1`: one or more decimal digits, maximal
run; fails recoverably with `ErrorKind::Digit` when the first character
does not match. -/
def digit1 : Parser (List Char) := fun i =>
  let taken := i.takeWhile isAsciiDigit
  if taken.isEmpty then .error (.Error (.from_error_kind i .Digit))
  else .ok (i.dropWhile isAsciiDigit, taken)

/-- Embeds `ignore` (src/parsers.rs lines 15-22). -/
def ignore {α : Type} (inner : Parser α) : Parser Unit :=
  mapP inner (fun _ => ())

/-- Embeds `comment` (src/parsers.rs lines 25-29). -/
def comment : Parser Unit :=
  ignore (preceded (charP ';') (many0 (none_of ['\n'])))

/-- The whitespace characters of `wordbreak0` / `wordbreak1`. -/
def wsChars : List Char := [' ', '\t', '\r', '\n']

/-- The single repeated element of `wordbreak0`/`wordbreak1`
(src/parsers.rs lines 35 and 42): one whitespace character or one
comment. -/
def wbElem : Parser Unit :=
  alt2 (ignore (one_of wsChars)) comment

/-- Embeds `wordbreak0` (src/parsers.rs lines 32-36). -/
def wordbreak0 : Parser Unit :=
  ignore (many0 wbElem)

/-- Embeds `wordbreak1` (src/parsers.rs lines 39-43). -/
def wordbreak1 : Parser Unit :=
  ignore (many1 wbElem)

/-- Embeds `surround` (src/parsers.rs lines 47-74): peeks the next character; on
`(` parses `( wordbreak0 cut(inner) wordbreak0 )` with context
"closing paren" on the closing part, on `[` the bracket version with
context "closing bracket"; otherwise fails recoverably expecting `(`. -/
def surround {α : Type} (inner : Parser α) (input : Input) : PResult α :=
  match peek anychar input with
  | .ok (_, c) =>
    if c = '(' then
      delimited (charP '(') (preceded wordbreak0 (cut inner))
        (context "closing paren" (preceded wordbreak0 (charP ')'))) input
    else if c = '[' then
      delimited (charP '[') (preceded wordbreak0 (cut inner))
        (context "closing bracket" (preceded wordbreak0 (charP ']'))) input
    else .error (.Error (.from_char input '('))
  | .error _ => .error (.Error (.from_char input '('))

/-- The word-boundary characters of `word` (src/parsers.rs line 82). -/
def boundaryChars : List Char :=
  [' ', '(', ')', '[', ']', '{', '}', '\n', '\t', '\r', ';']

/-- Embeds `word` (src/parsers.rs lines 78-92): takes characters up to a word
boundary; succeeds with unit when the taken text equals the expected word
and otherwise fails recoverably with a `from_word` diagnostic carrying the
taken text. -/
def word (w : List Char) : Parser Unit := fun i =>
  match context "matching word" (take_till (fun c => boundaryChars.contains c)) i with
  | .ok (rest, string) =>
    if string = w then .ok (rest, ())
    else .error (.Error (.from_word i (String.mk string)))
  | .error e => .error e

/-- Embeds `head` (src/parsers.rs lines 96-104). -/
def head {α : Type} (head_tag : List Char) (inner : Parser α) : Parser α :=
  preceded (context "incorrect head" (word head_tag)) (cut inner)

/-- The boundary characters of the `String` leaf parser
(src/std_impls.rs line 11): note the backslash, and the absence of
`\n`, `\t`, `\r`. -/
def stringChars : List Char := [' ', '(', ')', '[', ']', '{', '}', '\\', ';']

/-- Embeds `impl Sexpy for String`, `sexp_parse` (src/std_impls.rs lines 6-15):
`tuple((alpha1, many0(none_of(" ()[]{}\\;"))))`, returning the
concatenation of the two parts. -/
def stringSexpParse : Parser (List Char) := fun input =>
  match tuple2 alpha1 (many0 (none_of stringChars)) input with
  | .ok (next, (s, s1)) => .ok (next, s ++ s1)
  | .error e => .error e

/-- Rust `str::parse::<u64>` restricted to the outputs of `digit1` (a
nonempty run of ASCII digits): the decimal value, or failure on overflow
past `2 ^ 64 - 1`. -/
def parseU64Digits (ds : List Char) : Option Nat :=
  let n := ds.foldl (fun a c => 10 * a + (c.toNat - '0'.toNat)) 0
  if ds = [] then none
  else if n < 2 ^ 64 then some n
  else none

/-- Embeds `impl Sexpy for u64`, `sexp_parse` (src/std_impls.rs lines 18-29). -/
def u64SexpParse : Parser Nat := fun input =>
  match digit1 input with
  | .ok (next, digits) =>
    match parseU64Digits digits with
    | some num => .ok (next, num)
    | none => .error (.Error (.number input))
  | .error e => .error e

/-!  The renderer from src/error.rs (`offset`, `format_error`,
`convert_error`, `convert_error_verbose`) and the trait entry points from
src/lib.rs (`Sexpy::parse`, `Sexpy::parse_verbose`).  A Rust `panic!` is
modelled as `Option.none`. -/

/-- Embeds `offset` (src/error.rs lines 114-119): the address difference between
the original buffer and one of its suffix views. -/
def offsetOf (first second : Input) : Nat :=
  first.length - second.length

/-- Split on `'\n'`, keeping every segment. -/
def splitNl : List Char → List (List Char)
  | [] => [[]]
  | c :: rest =>
    if c = '\n' then [] :: splitNl rest
    else
      match splitNl rest with
      | seg :: segs => (c :: seg) :: segs
      | [] => [[c]]

/-- Rust `str::lines`: split on `'\n'`, drop a final empty segment, strip
one trailing `'\r'` from each line. -/
def rustLines (s : List Char) : List (List Char) :=
  let segs := splitNl s
  let segs := match segs.getLast? with
    | some [] => segs.dropLast
    | _ => segs
  segs.map (fun l => if l.getLast? = some '\r' then l.dropLast else l)

/-- The line/column loop of `format_error` (src/error.rs lines 151-162):
walk the lines, subtracting each line's length plus one for its
terminator, until the offset falls within a line. -/
def findLineCol : List (List Char) → Nat → Nat → Nat × Nat
  | [], _, _ => (0, 0)
  | l :: ls, off, j =>
    if off ≤ l.length then (j, off)
    else findLineCol ls (off - l.length - 1) (j + 1)

/-- Rust `{:?}` of nom's `ErrorKind` for the variants modelled here. -/
def ErrorKind.debugStr : ErrorKind → String
  | .OneOf => "OneOf"
  | .NoneOf => "NoneOf"
  | .Many0 => "Many0"
  | .Many1 => "Many1"
  | .Alpha => "Alpha"
  | .Digit => "Digit"
  | .Eof => "Eof"
  | .Alt => "Alt"

/-- A run of `column` spaces, as built by `repeat(' ').take(column)`. -/
def caretPad (column : Nat) : String :=
  if column > 0 then String.mk (List.replicate column ' ') else ""

/-- The "found" token of the `Char` arm of `format_error`
(src/error.rs lines 174-177). -/
def foundToken (substring : Input) : String :=
  match substring with
  | x :: _ => "'" ++ String.singleton x ++ "'"
  | [] => "<eof>"

/-- Embeds `format_error` (src/error.rs lines 121-223). -/
def format_error (input : Input) (num : Nat) (e : Input × SexpyErrorKind) :
    String :=
  let lines := rustLines input
  let off := offsetOf input e.1
  if lines.isEmpty then
    match e.2 with
    | .Char c =>
      toString num ++ ": expected '" ++ String.singleton c ++ "', got empty input\n\n"
    | .Word _ => toString num ++ ": expected a keyword, got empty input\n\n"
    | .Number => toString num ++ ": expected a number, got empty input\n\n"
    | .Context s => toString num ++ ": in " ++ s ++ ", got empty input\n\n"
    | .Nom k => toString num ++ ": in " ++ k.debugStr ++ ", got empty input\n\n"
  else
    let lc := findLineCol lines off 0
    let line := lc.1
    let column := lc.2
    let srcLine := String.mk (lines.getD line [])
    match e.2 with
    | .Char c =>
      toString num ++ ": at line " ++ toString line ++ ":\n" ++ srcLine ++ "\n" ++
        caretPad column ++ "^\n" ++
        "expected '" ++ String.singleton c ++ "', found " ++ foundToken e.1 ++ "\n\n"
    | .Word w =>
      toString num ++ ": at line " ++ toString line ++ ":\n" ++ srcLine ++ "\n" ++
        caretPad column ++ "^\n" ++
        "expected a keyword, found \x22" ++ w ++ "\x22\n\n"
    | .Number =>
      toString num ++ ": at line " ++ toString line ++ ":\n" ++ srcLine ++ "\n" ++
        caretPad column ++ "^\n" ++ "unable to parse number\n\n"
    | .Context s =>
      toString num ++ ": at line " ++ toString line ++ ", in " ++ s ++ ":\n" ++
        srcLine ++ "\n" ++ caretPad column ++ "^\n\n"
    | .Nom k =>
      toString num ++ ": at line " ++ toString line ++ ", in " ++ k.debugStr ++
        ":\n" ++ srcLine ++ "\n" ++ caretPad column ++ "^\n\n"

/-- Embeds `SexpyError::convert_error` (src/error.rs lines 71-77): renders only
entry 0; the `panic!` on an empty accumulator is modelled as `none`. -/
def convert_error (e : SexpyError) (input : Input) : Option String :=
  match e.errors with
  | [] => none
  | e0 :: _ => some (format_error input 0 e0)

/-- Embeds `SexpyError::convert_error_verbose` (src/error.rs lines 83-91):
renders every entry in stored order. -/
def convert_error_verbose (e : SexpyError) (input : Input) : String :=
  String.join ((e.errors.enum.map (fun p => format_error input p.1 p.2)))

/-- Embeds `Sexpy::parse` (src/lib.rs lines 146-156): skip leading `wordbreak0`,
run the typed parser, render failures with `convert_error` against the
original buffer.  `none` models a panic inside `convert_error`. -/
def parse {α : Type} (p : Parser α) (input : Input) :
    Option (Except String α) :=
  match preceded wordbreak0 p input with
  | .ok (_, x) => some (.ok x)
  | .error (.Error e) => (convert_error e input).map .error
  | .error (.Failure e) => (convert_error e input).map .error
  | .error .Incomplete => some (.error "Need more bytes to nom")

/-- Embeds `Sexpy::parse_verbose` (src/lib.rs lines 160-172). -/
def parseVerbose {α : Type} (p : Parser α) (input : Input) :
    Option (Except String α) :=
  match preceded wordbreak0 p input with
  | .ok (_, x) => some (.ok x)
  | .error (.Error e) => some (.error (convert_error_verbose e input))
  | .error (.Failure e) => some (.error (convert_error_verbose e input))
  | .error .Incomplete =>
    some (.error "Incomplete input, need more bytes to nom")

/-- Shorthand: the character list of a string literal. -/
def strL (s : String) : Input := s.data

/-- Does the input begin with a character that `wordbreak0` can consume
(whitespace, or the `;` that opens a comment)? -/
def startsWb : Input → Bool
  | [] => false
  | c :: _ => wsChars.contains c || c = ';'

/-- A parser that consumes at least one character whenever it succeeds.
Every parser repeated by `many0`/`many1` in this crate has this property,
which is what makes nom's non-consumption guard and the fuel in
`manyLoopF` invisible. -/
def Consuming {α : Type} (f : Parser α) : Prop :=
  ∀ i i1 o, f i = .ok (i1, o) → i1.length < i.length

/-- A parser whose every failure carries a nonempty accumulator.  All
parsers assembled from this crate's combinators satisfy it; it is exactly
the guarantee `convert_error` relies on to not panic. -/
def FailsNonempty {α : Type} (p : Parser α) : Prop :=
  ∀ i e, (p i = .error (.Error e) ∨ p i = .error (.Failure e)) → e.errors ≠ []

instance {ε α : Type} [DecidableEq ε] [DecidableEq α] :
    DecidableEq (Except ε α) := fun x y =>
  match x, y with
  | .ok a, .ok b =>
    if h : a = b then .isTrue (by rw [h])
    else .isFalse (fun hh => h (by injection hh))
  | .ok _, .error _ => .isFalse (fun hh => by injection hh)
  | .error _, .ok _ => .isFalse (fun hh => by injection hh)
  | .error e, .error f =>
    if h : e = f then .isTrue (by rw [h])
    else .isFalse (fun hh => h (by injection hh))

/-! Helper lemmas. -/

theorem head?_dropWhile_not {p : Char → Bool} :
    ∀ {l : List Char} {c : Char}, (l.dropWhile p).head? = some c → p c = false := by
  intro l
  induction l with
  | nil => intro c h; simp [List.dropWhile] at h
  | cons a t ih =>
    intro c h
    by_cases hp : p a
    · rw [List.dropWhile_cons_of_pos hp] at h
      exact ih h
    · rw [List.dropWhile_cons_of_neg hp] at h
      simp only [List.head?_cons, Option.some.injEq] at h
      subst h
      exact Bool.eq_false_iff.mpr hp

theorem takeWhile_then (p q : Char → Bool) (hpq : ∀ c, p c = true → q c = true) :
    ∀ l : List Char, l.takeWhile p ++ (l.dropWhile p).takeWhile q = l.takeWhile q := by
  intro l
  induction l with
  | nil => rfl
  | cons c t ih =>
    by_cases hp : p c
    · rw [List.takeWhile_cons_of_pos hp, List.dropWhile_cons_of_pos hp,
        List.takeWhile_cons_of_pos (hpq c hp), List.cons_append, ih]
    · rw [List.takeWhile_cons_of_neg hp, List.dropWhile_cons_of_neg hp,
        List.nil_append]

theorem dropWhile_then (p q : Char → Bool) (hpq : ∀ c, p c = true → q c = true) :
    ∀ l : List Char, (l.dropWhile p).dropWhile q = l.dropWhile q := by
  intro l
  induction l with
  | nil => rfl
  | cons c t ih =>
    by_cases hp : p c
    · rw [List.dropWhile_cons_of_pos hp, List.dropWhile_cons_of_pos (hpq c hp), ih]
    · rw [List.dropWhile_cons_of_neg hp]

theorem manyLoopF_fuel {α : Type} (k : ErrorKind) (f : Parser α)
    (hf : Consuming f) :
    ∀ fuel i, i.length < fuel →
      manyLoopF k f fuel i = manyLoopF k f (i.length + 1) i := by
  intro fuel
  induction fuel using Nat.strong_induction_on with
  | _ fuel ih =>
    intro i hi
    match fuel, hi with
    | fuel + 1, hi =>
      show manyLoopF k f (fuel + 1) i = manyLoopF k f (i.length + 1) i
      simp only [manyLoopF]
      cases hfi : f i with
      | error e => cases e <;> rfl
      | ok p =>
        obtain ⟨i1, o⟩ := p
        have hlt : i1.length < i.length := hf i i1 o hfi
        have hne : i1 ≠ i := by
          intro hcon
          rw [hcon] at hlt
          exact absurd hlt (lt_irrefl _)
        dsimp only
        rw [if_neg hne, if_neg hne]
        have h1 : manyLoopF k f fuel i1 = manyLoopF k f (i1.length + 1) i1 := by
          apply ih fuel (Nat.lt_succ_self fuel) i1
          exact Nat.lt_of_lt_of_le hlt (Nat.lt_succ_iff.mp hi)
        have h2 : manyLoopF k f i.length i1 = manyLoopF k f (i1.length + 1) i1 := by
          apply ih i.length hi i1 hlt
        rw [h1, h2]

theorem many0_eq {α : Type} (f : Parser α) (hf : Consuming f) (i : Input) :
    many0 f i =
      match f i with
      | .error (.Error _) => .ok (i, [])
      | .error (.Failure e) => .error (.Failure e)
      | .error .Incomplete => .error .Incomplete
      | .ok (i1, o) =>
        match many0 f i1 with
        | .ok (i2, os) => .ok (i2, o :: os)
        | .error e => .error e := by
  show manyLoopF .Many0 f (i.length + 1) i = _
  simp only [manyLoopF]
  cases hfi : f i with
  | error e => cases e <;> rfl
  | ok p =>
    obtain ⟨i1, o⟩ := p
    have hlt : i1.length < i.length := hf i i1 o hfi
    have hne : i1 ≠ i := by
      intro hcon
      rw [hcon] at hlt
      exact absurd hlt (lt_irrefl _)
    dsimp only
    rw [if_neg hne, manyLoopF_fuel .Many0 f hf i.length i1 hlt]
    rfl

theorem dropWhile_cons_pos (p : Char → Bool) (c : Char) (t : List Char)
    (h : p c = true) : (c :: t).dropWhile p = t.dropWhile p := by
  simp [List.dropWhile, h]

theorem dropWhile_cons_neg (p : Char → Bool) (c : Char) (t : List Char)
    (h : p c = false) : (c :: t).dropWhile p = c :: t := by
  simp [List.dropWhile, h]

theorem takeWhile_cons_pos (p : Char → Bool) (c : Char) (t : List Char)
    (h : p c = true) : (c :: t).takeWhile p = c :: t.takeWhile p := by
  simp [List.takeWhile, h]

theorem takeWhile_cons_neg (p : Char → Bool) (c : Char) (t : List Char)
    (h : p c = false) : (c :: t).takeWhile p = [] := by
  simp [List.takeWhile, h]

theorem length_dropWhile_le (p : Char → Bool) :
    ∀ l : List Char, (l.dropWhile p).length ≤ l.length := by
  intro l
  induction l with
  | nil => exact Nat.le_refl _
  | cons c t ih =>
    by_cases h : p c
    · rw [dropWhile_cons_pos p c t h]
      exact Nat.le_succ_of_le ih
    · rw [dropWhile_cons_neg p c t (Bool.eq_false_iff.mpr h)]

theorem consuming_none_of (l : List Char) : Consuming (none_of l) := by
  intro i i1 o h
  cases i with
  | nil => simp [none_of] at h
  | cons c t =>
    by_cases hm : c ∈ l
    · simp [none_of, hm] at h
    · simp only [none_of, if_neg hm, Except.ok.injEq, Prod.mk.injEq] at h
      rw [← h.1]
      exact Nat.lt_succ_self t.length

theorem many0_none_of (l : List Char) :
    ∀ i : Input, many0 (none_of l) i =
      .ok (i.dropWhile (fun c => !(decide (c ∈ l))),
           i.takeWhile (fun c => !(decide (c ∈ l)))) := by
  intro i
  induction i with
  | nil => rw [many0_eq (none_of l) (consuming_none_of l)]; rfl
  | cons c t ih =>
    rw [many0_eq (none_of l) (consuming_none_of l)]
    by_cases hm : c ∈ l
    · have hp : (fun c => !(decide (c ∈ l))) c = false := by simp [hm]
      rw [dropWhile_cons_neg _ c t hp, takeWhile_cons_neg _ c t hp]
      simp [none_of, hm]
    · have hp : (fun c => !(decide (c ∈ l))) c = true := by simp [hm]
      rw [dropWhile_cons_pos _ c t hp, takeWhile_cons_pos _ c t hp]
      simp [none_of, hm, ih]

theorem comment_semi (t : Input) :
    comment (';' :: t) =
      .ok (t.dropWhile (fun c => !(decide (c ∈ (['\n'] : List Char)))), ()) := by
  show mapP (preceded (charP ';') (many0 (none_of ['\n']))) _ (';' :: t) = _
  simp [mapP, preceded, charP, many0_none_of]

theorem comment_fail (i : Input) (h : i.head? ≠ some ';') :
    comment i = .error (.Error (SexpyError.from_char i ';')) := by
  cases i with
  | nil => rfl
  | cons c t =>
    have hc : c ≠ ';' := by
      intro hcon
      rw [hcon] at h
      exact h rfl
    show mapP (preceded (charP ';') (many0 (none_of ['\n']))) _ (c :: t) = _
    simp [mapP, preceded, charP, hc]

theorem wbElem_cases (i : Input) :
    (startsWb i = false ∧ ∃ e, wbElem i = .error (.Error e)) ∨
    (∃ c t, i = c :: t ∧ c ∈ wsChars ∧ wbElem i = .ok (t, ())) ∨
    (∃ t, i = ';' :: t ∧
      wbElem i = .ok (t.dropWhile (fun c => !(decide (c ∈ (['\n'] : List Char)))), ())) := by
  cases i with
  | nil =>
    left
    refine ⟨rfl, ?_⟩
    exact ⟨⟨[([], .Char ';'), ([], .Nom .Alt)]⟩, rfl⟩
  | cons c t =>
    by_cases hws : c ∈ wsChars
    · right; left
      refine ⟨c, t, rfl, hws, ?_⟩
      show alt2 (ignore (one_of wsChars)) comment (c :: t) = _
      simp [alt2, ignore, mapP, one_of, hws]
    · by_cases hsemi : c = ';'
      · right; right
        subst hsemi
        refine ⟨t, rfl, ?_⟩
        show alt2 (ignore (one_of wsChars)) comment (';' :: t) = _
        simp only [alt2, ignore, mapP, one_of, if_neg hws]
        rw [comment_semi t]
      · left
        constructor
        · simp [startsWb, hws, hsemi]
        · show ∃ e, alt2 (ignore (one_of wsChars)) comment (c :: t) = .error (.Error e)
          simp only [alt2, ignore, mapP, one_of, if_neg hws]
          rw [comment_fail (c :: t) (by simp [hsemi])]
          exact ⟨_, rfl⟩

theorem consuming_wbElem : Consuming wbElem := by
  intro i i1 o h
  rcases wbElem_cases i with ⟨_, e, he⟩ | ⟨c, t, hi, _, hok⟩ | ⟨t, hi, hok⟩
  · rw [he] at h; exact absurd h (by simp)
  · rw [hok] at h
    injection h with h'
    rw [hi, ← (Prod.mk.injEq _ _ _ _).mp h' |>.1]
    exact Nat.lt_succ_self t.length
  · rw [hok] at h
    injection h with h'
    rw [hi, ← (Prod.mk.injEq _ _ _ _).mp h' |>.1]
    exact Nat.lt_succ_of_le (length_dropWhile_le _ t)

theorem many0_wbElem_total :
    ∀ (n : Nat) (i : Input), i.length ≤ n →
      ∃ rest l, many0 wbElem i = .ok (rest, l) ∧ startsWb rest = false ∧
        (startsWb i = false → rest = i) := by
  intro n
  induction n with
  | zero =>
    intro i hi
    have hnil : i = [] := List.length_eq_zero.mp (Nat.le_zero.mp hi)
    subst hnil
    rcases wbElem_cases [] with ⟨hs, e, he⟩ | ⟨c, t, hi', _⟩ | ⟨t, hi', _⟩
    · refine ⟨[], [], ?_, rfl, fun _ => rfl⟩
      rw [many0_eq wbElem consuming_wbElem, he]
    · exact absurd hi' (by simp)
    · exact absurd hi' (by simp)
  | succ n ih =>
    intro i hi
    rcases wbElem_cases i with ⟨hs, e, he⟩ | ⟨c, t, hi', hws, hok⟩ | ⟨t, hi', hok⟩
    · refine ⟨i, [], ?_, hs, fun _ => rfl⟩
      rw [many0_eq wbElem consuming_wbElem, he]
    · have hlen : t.length ≤ n := by
        rw [hi'] at hi
        exact Nat.lt_succ_iff.mp (Nat.lt_of_lt_of_le (Nat.lt_succ_self _) hi)
      obtain ⟨rest, l, hrec, hrs, _⟩ := ih t hlen
      refine ⟨rest, () :: l, ?_, hrs, ?_⟩
      · rw [many0_eq wbElem consuming_wbElem, hok]
        dsimp only
        rw [hrec]
      · intro hcon
        rw [hi'] at hcon
        simp [startsWb] at hcon
        exact absurd hws hcon.1
    · have hlen : (t.dropWhile (fun c => !(decide (c ∈ (['\n'] : List Char))))).length ≤ n := by
        have h1 := length_dropWhile_le (fun c => !(decide (c ∈ (['\n'] : List Char)))) t
        rw [hi'] at hi
        exact Nat.le_trans h1 (Nat.lt_succ_iff.mp (Nat.lt_of_lt_of_le (Nat.lt_succ_self _) hi))
      obtain ⟨rest, l, hrec, hrs, _⟩ := ih _ hlen
      refine ⟨rest, () :: l, ?_, hrs, ?_⟩
      · rw [many0_eq wbElem consuming_wbElem, hok]
        dsimp only
        rw [hrec]
      · intro hcon
        rw [hi'] at hcon
        simp [startsWb] at hcon

theorem wordbreak0_total (i : Input) :
    ∃ rest, wordbreak0 i = .ok (rest, ()) ∧ startsWb rest = false ∧
      (startsWb i = false → rest = i) := by
  obtain ⟨rest, l, hok, hrs, hid⟩ := many0_wbElem_total i.length i (Nat.le_refl _)
  refine ⟨rest, ?_, hrs, hid⟩
  show mapP (many0 wbElem) _ i = _
  rw [mapP, hok]

theorem wordbreak0_no_wb (i : Input) (h : startsWb i = false) :
    wordbreak0 i = .ok (i, ()) := by
  obtain ⟨rest, hok, _, hid⟩ := wordbreak0_total i
  rw [hok, hid h]

/-! Claim theorems. -/

/-- C3: for every expected word and every input, `word` consumes the
maximal prefix of characters outside the boundary set
`{space, tab, CR, LF, (, ), [, ], \x7b, \x7d, ;}` — every consumed
character is a non-boundary character and the first unconsumed character,
if any, is a boundary character.  If the consumed prefix equals the
expected word, `word` succeeds with unit leaving the boundary untouched;
otherwise it fails recoverably with a `from_word` diagnostic carrying the
actual consumed text. -/
theorem c3_word_spec (w : List Char) (i : Input) :
    ∃ taken rest, i = taken ++ rest ∧
      (∀ c ∈ taken, boundaryChars.contains c = false) ∧
      (∀ c, rest.head? = some c → boundaryChars.contains c = true) ∧
      word w i =
        (if taken = w then .ok (rest, ())
         else .error (.Error (SexpyError.from_word i (String.mk taken)))) := by
  refine ⟨i.takeWhile (fun c => !(boundaryChars.contains c)),
          i.dropWhile (fun c => !(boundaryChars.contains c)), ?_, ?_, ?_, ?_⟩
  · exact (List.takeWhile_append_dropWhile _ _).symm
  · intro c hc
    have h1 := List.mem_takeWhile_imp hc
    simp only [Bool.not_eq_true'] at h1
    exact h1
  · intro c hc
    have h1 := head?_dropWhile_not hc
    simp only [Bool.not_eq_false'] at h1
    exact h1
  · rfl

/-- C3 witness: `word "tag"` applied to the input `tagX ` consumes the
whole token `tagX` and reports it in the diagnostic. -/
theorem c3_word_spec_witness :
    ∃ taken rest, strL "tagX " = taken ++ rest ∧
      (∀ c ∈ taken, boundaryChars.contains c = false) ∧
      (∀ c, rest.head? = some c → boundaryChars.contains c = true) ∧
      word (strL "tag") (strL "tagX ") =
        (if taken = strL "tag" then .ok (rest, ())
         else .error (.Error (SexpyError.from_word (strL "tagX ") (String.mk taken)))) :=
  c3_word_spec (strL "tag") (strL "tagX ")

/-- C4 counterexample: `add_context` does not push the new context entry
to index 0 — after extending a singleton accumulator, entry 0 is still the
original diagnostic, not the new context entry. -/
theorem c4_add_context_not_front :
    (SexpyError.add_context (strL "y") "ctx"
        (SexpyError.from_char (strL "x") 'q')).errors.head?
      ≠ some (strL "y", SexpyErrorKind.Context "ctx") := by decide

/-- C4 (amended): `add_context(view, label, acc)` appends the
generic-context-label entry, associated with `view`, after `acc`'s
existing entries (it becomes the last entry, not index 0). -/
theorem c4_add_context_appends (view : Input) (lbl : String) (acc : SexpyError) :
    (SexpyError.add_context view lbl acc).errors
      = acc.errors ++ [(view, SexpyErrorKind.Context lbl)] := rfl

/-- C5: every constructor of the accumulator creates a single entry, and
both extensions (`append`, `add_context`) add their entry at the back and
leave entry 0 — the diagnostic created at the point of first failure —
unchanged whenever the accumulator is nonempty. -/
theorem c5_accumulator_invariant (i : Input) (k : ErrorKind) (c : Char)
    (w : String) (ctx : String) (acc : SexpyError) :
    (SexpyError.from_error_kind i k).errors = [(i, .Nom k)] ∧
    (SexpyError.from_char i c).errors = [(i, .Char c)] ∧
    (SexpyError.from_word i w).errors = [(i, .Word w)] ∧
    (SexpyError.number i).errors = [(i, .Number)] ∧
    (SexpyError.append i k acc).errors = acc.errors ++ [(i, .Nom k)] ∧
    (SexpyError.add_context i ctx acc).errors
        = acc.errors ++ [(i, .Context ctx)] ∧
    (acc.errors ≠ [] →
      (SexpyError.append i k acc).errors.head? = acc.errors.head?) ∧
    (acc.errors ≠ [] →
      (SexpyError.add_context i ctx acc).errors.head? = acc.errors.head?) := by
  refine ⟨rfl, rfl, rfl, rfl, rfl, rfl, ?_, ?_⟩ <;>
  · intro h
    cases hacc : acc.errors with
    | nil => exact absurd hacc h
    | cons a tl => simp [SexpyError.append, SexpyError.add_context, hacc]

/-- C5 witness: extending a singleton accumulator keeps its entry at
index 0. -/
theorem c5_accumulator_invariant_witness :
    (SexpyError.append [] .Alt (SexpyError.number (strL "z"))).errors.head?
      = (SexpyError.number (strL "z")).errors.head? :=
  (c5_accumulator_invariant [] .Alt 'a' "" "" (SexpyError.number (strL "z"))).2.2.2.2.2.2.1
    (by decide)

/-- C7: contrary to the claim, `surround` does not accept brace-delimited
input: on an input starting with `\x7b` it fails recoverably with the
canonical expected-`(` diagnostic, even though the crate's own
documentation promises "parentheses, brackets, or curly braces". -/
theorem c7_surround_rejects_brace :
    surround (word (strL "a")) (strL "{a}")
      = .error (.Error (SexpyError.from_char (strL "{a}") '(')) := by decide

/-- C8: `wordbreak0` succeeds on every input; it consumes nothing when the
input does not begin with a whitespace character or a `;` comment; and it
is idempotent — a second run on the remainder of a first run consumes
nothing further. -/
theorem c8_wordbreak0_props (i : Input) :
    (∃ rest, wordbreak0 i = .ok (rest, ())) ∧
    (startsWb i = false → wordbreak0 i = .ok (i, ())) ∧
    (∀ rest, wordbreak0 i = .ok (rest, ()) → wordbreak0 rest = .ok (rest, ())) := by
  obtain ⟨rest, hok, hrs, _⟩ := wordbreak0_total i
  refine ⟨⟨rest, hok⟩, fun h => wordbreak0_no_wb i h, ?_⟩
  intro rest' h'
  rw [hok] at h'
  injection h' with h''
  have h1 : rest = rest' := ((Prod.mk.injEq _ _ _ _).mp h'').1
  rw [← h1]
  exact wordbreak0_no_wb rest hrs

/-- C8 witness: on input `x` (no leading whitespace or comment),
`wordbreak0` consumes nothing. -/
theorem c8_wordbreak0_props_witness :
    wordbreak0 (strL "x") = .ok (strL "x", ()) :=
  (c8_wordbreak0_props (strL "x")).2.1 (by decide)

/-- C1 counterexample: on input `(a` with inner parser `word "a"`, the
required `)` is missing and `surround` fails with a *recoverable*
`Err::Error` (carrying the "closing paren" context), not with the
committed `Err::Failure` the claim asserts. -/
theorem c1_missing_close_is_recoverable :
    surround (word (strL "a")) (strL "(a")
      = .error (.Error ⟨[([], .Char ')'), ([], .Context "closing paren")]⟩) := by
  decide

/-- C1 (amended): when the input starts with `(` (resp. `[`), the opening
delimiter is consumed, `inner` succeeds, and the required closing
delimiter is missing, `surround` fails with a recoverable (`Err::Error`,
so an enclosing alternation may still backtrack) failure whose
accumulator carries the context label "closing paren" (resp.
"closing bracket") after the expected-character diagnostic. -/
theorem c1_surround_missing_close {α : Type} (inner : Parser α)
    (od cd : Char) (lbl : String) (t t1 t2 t3 : Input) (o : α)
    (hd : (od = '(' ∧ cd = ')' ∧ lbl = "closing paren") ∨
          (od = '[' ∧ cd = ']' ∧ lbl = "closing bracket"))
    (hwb : wordbreak0 t = .ok (t1, ()))
    (hin : inner t1 = .ok (t2, o))
    (hwb2 : wordbreak0 t2 = .ok (t3, ()))
    (hcl : t3.head? ≠ some cd) :
    surround inner (od :: t) =
      .error (.Error ⟨[(t3, .Char cd), (t2, .Context lbl)]⟩) := by
  have hcp : charP cd t3 = .error (.Error (SexpyError.from_char t3 cd)) := by
    cases t3 with
    | nil => rfl
    | cons c r =>
      have hc : c ≠ cd := by
        intro hcc
        exact hcl (by rw [hcc]; rfl)
      simp [charP, hc]
  rcases hd with ⟨h1, h2, h3⟩ | ⟨h1, h2, h3⟩ <;> subst h1 <;> subst h2 <;> subst h3
  · show delimited (charP '(') (preceded wordbreak0 (cut inner))
      (context "closing paren" (preceded wordbreak0 (charP ')'))) ('(' :: t) = _
    have h0 : charP '(' ('(' :: t) = .ok (t, '(') := by simp [charP]
    simp [delimited, h0, preceded, cut, hwb, hin, context, hwb2, hcp,
      SexpyError.add_context, SexpyError.from_char]
  · show delimited (charP '[') (preceded wordbreak0 (cut inner))
      (context "closing bracket" (preceded wordbreak0 (charP ']'))) ('[' :: t) = _
    have h0 : charP '[' ('[' :: t) = .ok (t, '[') := by simp [charP]
    simp [delimited, h0, preceded, cut, hwb, hin, context, hwb2, hcp,
      SexpyError.add_context, SexpyError.from_char]

/-- C1 witness: the bracket form at a concrete input, via the amended
theorem. -/
theorem c1_surround_missing_close_witness :
    surround (word (strL "a")) (strL "[a")
      = .error (.Error ⟨[([], .Char ']'), ([], .Context "closing bracket")]⟩) :=
  c1_surround_missing_close (word (strL "a")) '[' ']' "closing bracket"
    (strL "a") (strL "a") [] [] ()
    (Or.inr ⟨rfl, rfl, rfl⟩) (by decide) (by decide) (by decide) (by decide)

/-- C2: `head(tag, inner)` is definitionally `word(tag)` under the context
label "incorrect head", then a commit point (`cut`), then `inner`; and
whenever `word(tag)` succeeds, any failure of `inner` on the remainder is
a committed `Failure`, which an enclosing alternation propagates without
trying a sibling candidate. -/
theorem c2_head_commit {α : Type} (tag : Input) (inner : Parser α)
    (i rest : Input) (e : SexpyError)
    (hw : word tag i = .ok (rest, ()))
    (hin : inner rest = .error (.Error e) ∨ inner rest = .error (.Failure e)) :
    head tag inner i
        = preceded (context "incorrect head" (word tag)) (cut inner) i ∧
    head tag inner i = .error (.Failure e) ∧
    ∀ q : Parser α, alt2 (head tag inner) q i = .error (.Failure e) := by
  have hh : head tag inner i = .error (.Failure e) := by
    show preceded (context "incorrect head" (word tag)) (cut inner) i = _
    have hctx : context "incorrect head" (word tag) i = .ok (rest, ()) := by
      simp [context, hw]
    simp only [preceded, hctx, cut]
    rcases hin with h | h <;> rw [h]
  refine ⟨rfl, hh, ?_⟩
  intro q
  simp [alt2, hh]

/-- C2 witness: `head "foo" u64` on input `foo(` — the keyword matches,
the inner number parser fails, and the failure is committed. -/
theorem c2_head_commit_witness :
    alt2 (head (strL "foo") u64SexpParse) u64SexpParse (strL "foo(")
      = .error (.Failure ⟨[(strL "(", .Nom .Digit)]⟩) :=
  (c2_head_commit (strL "foo") u64SexpParse (strL "foo(") (strL "(")
      ⟨[(strL "(", .Nom .Digit)]⟩ (by decide) (Or.inl (by decide))).2.2
    u64SexpParse

theorem u64_failsNonempty : FailsNonempty u64SexpParse := by
  intro i e h
  by_cases hd : (i.takeWhile isAsciiDigit).isEmpty
  · have h1 : u64SexpParse i
        = .error (.Error (SexpyError.from_error_kind i .Digit)) := by
      simp [u64SexpParse, digit1, hd]
    rcases h with h' | h'
    · rw [h1] at h'
      injection h' with h2
      injection h2 with h3
      rw [← h3]
      simp [SexpyError.from_error_kind]
    · rw [h1] at h'
      injection h' with h2
      exact absurd h2 (by simp)
  · have h1 : digit1 i = .ok (i.dropWhile isAsciiDigit, i.takeWhile isAsciiDigit) := by
      simp [digit1, hd]
    cases hp : parseU64Digits (i.takeWhile isAsciiDigit) with
    | some n =>
      have h2 : u64SexpParse i = .ok (i.dropWhile isAsciiDigit, n) := by
        simp [u64SexpParse, h1, hp]
      rcases h with h' | h' <;> rw [h2] at h' <;> exact absurd h' (by simp)
    | none =>
      have h2 : u64SexpParse i = .error (.Error (SexpyError.number i)) := by
        simp [u64SexpParse, h1, hp]
      rcases h with h' | h'
      · rw [h2] at h'
        injection h' with h3
        injection h3 with h4
        rw [← h4]
        simp [SexpyError.number]
      · rw [h2] at h'
        injection h' with h3
        exact absurd h3 (by simp)

/-- C6: for every typed parser whose failures carry a nonempty
accumulator (as all parsers assembled from this crate's combinators do),
the top-level entry point never panics: it skips leading `wordbreak0`,
returns the parsed value on success, and on any failure returns an `Err`
carrying the diagnostic rendered against the original input buffer —
entry 0 only for `parse`, and `parse_verbose` also always returns. -/
theorem c6_parse_total {α : Type} (p : Parser α) (i : Input)
    (hp : FailsNonempty p) :
    (parse p i).isSome = true ∧
    (parseVerbose p i).isSome = true ∧
    (∀ rest x, preceded wordbreak0 p i = .ok (rest, x) →
      parse p i = some (.ok x)) ∧
    (∀ e e0 tl,
      (preceded wordbreak0 p i = .error (.Error e) ∨
       preceded wordbreak0 p i = .error (.Failure e)) →
      e.errors = e0 :: tl →
      parse p i = some (.error (format_error i 0 e0))) ∧
    (∀ e,
      (preceded wordbreak0 p i = .error (.Error e) ∨
       preceded wordbreak0 p i = .error (.Failure e)) →
      parseVerbose p i = some (.error (convert_error_verbose e i))) := by
  obtain ⟨t1, hok, _, _⟩ := wordbreak0_total i
  have hpre : preceded wordbreak0 p i = p t1 := by simp [preceded, hok]
  refine ⟨?_, ?_, ?_, ?_, ?_⟩
  · cases hres : p t1 with
    | ok r => simp [parse, hpre, hres]
    | error ne =>
      cases ne with
      | Error e =>
        have hne := hp t1 e (Or.inl hres)
        cases hE : e.errors with
        | nil => exact absurd hE hne
        | cons e0 tl => simp [parse, hpre, hres, convert_error, hE]
      | Failure e =>
        have hne := hp t1 e (Or.inr hres)
        cases hE : e.errors with
        | nil => exact absurd hE hne
        | cons e0 tl => simp [parse, hpre, hres, convert_error, hE]
      | Incomplete => simp [parse, hpre, hres]
  · cases hres : p t1 with
    | ok r => simp [parseVerbose, hpre, hres]
    | error ne => cases ne <;> simp [parseVerbose, hpre, hres]
  · intro rest x h
    rw [hpre] at h
    simp [parse, hpre, h]
  · intro e e0 tl hfail hE
    rcases hfail with h | h <;> rw [hpre] at h <;>
      simp [parse, hpre, h, convert_error, hE]
  · intro e hfail
    rcases hfail with h | h <;> rw [hpre] at h <;>
      simp [parseVerbose, hpre, h]

/-- C6 witness: the unsigned-integer leaf parser at a malformed input. -/
theorem c6_parse_total_witness :
    (parse u64SexpParse (strL "(x")).isSome = true :=
  (c6_parse_total u64SexpParse (strL "(x") u64_failsNonempty).1

/-- C9 counterexample: for the trait implementation of u64, the inputs
`; note\n(foo 1)` and `(foo 1)` do NOT parse to identical results — both
fail, and the rendered diagnostic differs (the reported line number
shifts by the comment line). -/
theorem c9_render_differs :
    parse u64SexpParse (strL "; note\n(foo 1)")
      ≠ parse u64SexpParse (strL "(foo 1)") := by decide

/-- C9 (amended): prefixing the input with a `;` comment line changes
nothing before rendering — the typed parse on `; note\n(foo 1)` is the
very same computation as on `(foo 1)` — so every parser that succeeds on
`(foo 1)` produces the identical result on both inputs; only the rendered
failure string may differ (in its reported line number). -/
theorem c9_comment_skip {α : Type} (p : Parser α) :
    preceded wordbreak0 p (strL "; note\n(foo 1)")
        = preceded wordbreak0 p (strL "(foo 1)") ∧
    (∀ x : α, parse p (strL "; note\n(foo 1)") = some (.ok x) ↔
              parse p (strL "(foo 1)") = some (.ok x)) := by
  have h1 : wordbreak0 (strL "; note\n(foo 1)") = .ok (strL "(foo 1)", ()) := by
    decide
  have h2 : wordbreak0 (strL "(foo 1)") = .ok (strL "(foo 1)", ()) := by decide
  have hpre : preceded wordbreak0 p (strL "; note\n(foo 1)")
      = p (strL "(foo 1)") := by simp [preceded, h1]
  have hpre2 : preceded wordbreak0 p (strL "(foo 1)")
      = p (strL "(foo 1)") := by simp [preceded, h2]
  refine ⟨hpre.trans hpre2.symm, ?_⟩
  intro x
  cases hres : p (strL "(foo 1)") with
  | ok r => simp [parse, hpre, hpre2, hres]
  | error ne =>
    cases ne with
    | Error e =>
      simp only [parse, hpre, hpre2, hres]
      cases convert_error e (strL "; note\n(foo 1)") <;>
        cases convert_error e (strL "(foo 1)") <;> simp
    | Failure e =>
      simp only [parse, hpre, hpre2, hres]
      cases convert_error e (strL "; note\n(foo 1)") <;>
        cases convert_error e (strL "(foo 1)") <;> simp
    | Incomplete => simp [parse, hpre, hpre2, hres]

/-- C9 witness: the amended equality at the String leaf parser. -/
theorem c9_comment_skip_witness :
    preceded wordbreak0 stringSexpParse (strL "; note\n(foo 1)")
      = preceded wordbreak0 stringSexpParse (strL "(foo 1)") :=
  (c9_comment_skip stringSexpParse).1

/-- C10: the String leaf parser requires one or more leading ASCII
letters (otherwise it fails with nom's `Alpha` diagnostic) and consumes
the maximal run of characters outside
`{space, (, ), [, ], \x7b, \x7d, backslash, ;}`; newline, tab and
carriage return are not in that set (so they are consumed into the
token) while they are in `word`'s boundary set, and backslash is a
boundary here but not for `word` — the two boundary sets genuinely
differ in both directions. -/
theorem c10_string_leaf (i : Input) :
    (i.takeWhile isAsciiAlpha = [] →
      stringSexpParse i = .error (.Error (SexpyError.from_error_kind i .Alpha))) ∧
    (i.takeWhile isAsciiAlpha ≠ [] →
      stringSexpParse i =
        .ok (i.dropWhile (fun c => !(decide (c ∈ stringChars))),
             i.takeWhile (fun c => !(decide (c ∈ stringChars))))) ∧
    ('\n' ∉ stringChars ∧ '\t' ∉ stringChars ∧ '\r' ∉ stringChars ∧
      '\\' ∈ stringChars) ∧
    ('\n' ∈ boundaryChars ∧ '\t' ∈ boundaryChars ∧ '\r' ∈ boundaryChars ∧
      '\\' ∉ boundaryChars) := by
  have himp : ∀ c, isAsciiAlpha c = true →
      (fun c => !(decide (c ∈ stringChars))) c = true := by
    intro c hc
    simp only [Bool.not_eq_true', decide_eq_false_iff_not]
    intro hmem
    simp only [stringChars, List.mem_cons, List.not_mem_nil, or_false] at hmem
    rcases hmem with rfl | rfl | rfl | rfl | rfl | rfl | rfl | rfl | rfl <;>
      exact absurd hc (by decide)
  refine ⟨?_, ?_, by decide, by decide⟩
  · intro h
    have hempty : (i.takeWhile isAsciiAlpha).isEmpty = true := by simp [h]
    simp [stringSexpParse, tuple2, alpha1, hempty]
  · intro h
    have hne : (i.takeWhile isAsciiAlpha).isEmpty = false := by
      cases hh : i.takeWhile isAsciiAlpha with
      | nil => exact absurd hh h
      | cons a tl => rfl
    have halpha : alpha1 i
        = .ok (i.dropWhile isAsciiAlpha, i.takeWhile isAsciiAlpha) := by
      simp [alpha1, hne]
    have hmany := many0_none_of stringChars (i.dropWhile isAsciiAlpha)
    have hstep : stringSexpParse i =
        .ok ((i.dropWhile isAsciiAlpha).dropWhile
              (fun c => !(decide (c ∈ stringChars))),
             i.takeWhile isAsciiAlpha ++
              (i.dropWhile isAsciiAlpha).takeWhile
                (fun c => !(decide (c ∈ stringChars)))) := by
      simp [stringSexpParse, tuple2, halpha, hmany]
    rw [hstep, takeWhile_then isAsciiAlpha _ himp i,
      dropWhile_then isAsciiAlpha _ himp i]

/-- C10 witness: a bare String token consumes a newline into the token;
the parse stops at `(`. -/
theorem c10_string_leaf_witness :
    stringSexpParse (strL "ab\ncd(x") = .ok (strL "(x", strL "ab\ncd") :=
  (c10_string_leaf (strL "ab\ncd(x")).2.1 (by decide)

end Sexpy
